import Mathlib

/-!
# Verification of the betrayal_engine memory scanner

A shallow embedding of the core of `betrayal_engine` (a Linux process-memory
scanner/editor) together with proofs about its typed codec, scan/filter
engine, static-address resolver, pointer-graph builder and reclass evaluator.

Modelling conventions:
* machine integers are `Nat`/`Int`; byte buffers are `List Nat` (each < 256);
* the host is little-endian (x86-64), so `NativeEndian` decoding is LE;
* float scalars (`f32`/`f64` wrapped in `OrderedFloat`) are carried as their
  bit patterns: `byteorder`'s `read_f32`/`write_f32` transport the 4/8-byte
  bit pattern unchanged, and bit-pattern identity implies `OrderedFloat`
  equality, so round-trip facts proved on bit patterns cover the Rust values;
* fallible remote reads/writes are `Option`/`Except`; a Rust panic
  (the `usize` underflow in `possible_values`, which aborts either by the
  debug overflow check or by the subsequent out-of-bounds slice index)
  is modelled as `none`;
* `BTreeMap<usize, _>` candidate sets are association lists with unique keys;
* the remote process's memory and the OS map table are oracles packed in `Env`.
-/

namespace Betrayal

/-! ## Typed codec (src/memory.rs) -/

/-- Decode a little-endian byte list into a natural number
(`byteorder::ReadBytesExt` with `NativeEndian` on x86-64). -/
def decodeLE (bytes : List Nat) : Nat :=
  bytes.foldr (fun b acc => b + 256 * acc) 0

/-- Encode `v` into `n` little-endian bytes
(`byteorder::WriteBytesExt` with `NativeEndian` on x86-64). -/
def encodeLE : Nat → Nat → List Nat
  | 0, _ => []
  | n + 1, v => (v % 256) :: encodeLE n (v / 256)

/-- The nine scalar kinds supported by `ReadFromBytes`
(`f32`/`f64` stand for `OrderedFloat<f32>`/`OrderedFloat<f64>`). -/
inductive ScalarKind where
  | u8 | i16 | u16 | i32 | u32 | i64 | u64 | f32 | f64
deriving DecidableEq, Repr

/-- Model of `std::mem::size_of::<T>()` for each scalar kind. -/
def ScalarKind.size : ScalarKind → Nat
  | .u8 => 1
  | .i16 => 2
  | .u16 => 2
  | .i32 => 4
  | .u32 => 4
  | .i64 => 8
  | .u64 => 8
  | .f32 => 4
  | .f64 => 8

/-- Whether the kind's `read_*` method sign-extends (the `iN` kinds). -/
def ScalarKind.signed : ScalarKind → Bool
  | .i16 => true
  | .i32 => true
  | .i64 => true
  | _ => false

/-- Model of `T::read_value` / the cursor read inside `possible_values`: decode
`bytes` (little-endian) as a value of kind `k`, sign-extending for the
signed kinds.  Float kinds carry their bit pattern. -/
def ScalarKind.decode (k : ScalarKind) (bytes : List Nat) : Int :=
  let u := decodeLE bytes
  if k.signed = true ∧ 2 ^ (8 * k.size - 1) ≤ u then
    (u : Int) - 2 ^ (8 * k.size)
  else
    (u : Int)

/-- Model of `T::write_bytes`: the two's-complement little-endian encoding of `v`
in `k.size` bytes. -/
def ScalarKind.encode (k : ScalarKind) (v : Int) : List Nat :=
  encodeLE k.size (v % (2 ^ (8 * k.size))).toNat

/-- The in-range predicate for a value of kind `k`: what a Rust value of
that type can hold (bit patterns for the float kinds). -/
def ScalarKind.inRange (k : ScalarKind) (v : Int) : Prop :=
  if k.signed = true then
    -(2 ^ (8 * k.size - 1)) ≤ v ∧ v < 2 ^ (8 * k.size - 1)
  else
    0 ≤ v ∧ v < 2 ^ (8 * k.size)

instance (k : ScalarKind) (v : Int) : Decidable (k.inRange v) := by
  unfold ScalarKind.inRange
  infer_instance

/-- Model of the session scalar's `+` on embedded values for the seven
integer kinds: two's-complement **wrapping** addition — what `T + T`
does in a release build (a debug build panics on overflow instead; the
spec's own scenario 2 asks for the wrapping reading).  In-range operands
give exactly Rust's `wrapping_add`. -/
def ScalarKind.wrapAdd (k : ScalarKind) (a b : Int) : Int :=
  if k.signed = true then
    (a + b + 2 ^ (8 * k.size - 1)) % 2 ^ (8 * k.size) - 2 ^ (8 * k.size - 1)
  else
    (a + b) % 2 ^ (8 * k.size)

/-- Model of the `ChangedBy` test `current_value + diff == *value` at
the session kind.  For the seven integer kinds both `+` (wrapping, see
`ScalarKind.wrapAdd`) and `==` (exact value equality) are fully
interpreted here.  For the float kinds (`OrderedFloat<f32>`/`<f64>`)
the `+` is IEEE-754 addition of the denoted floats and the `==` is
`OrderedFloat` equality (NaNs equal, `+0 == -0`), neither of which this
embedding interprets: the combined test on the three bit patterns is
supplied by the oracle `floatTest`. -/
def ScalarKind.changedByTest (k : ScalarKind)
    (floatTest : Int → Int → Int → Bool)
    (current diff previous : Int) : Bool :=
  match k with
  | .f32 => floatTest current diff previous
  | .f64 => floatTest current diff previous
  | _ => decide (k.wrapAdd current diff = previous)

/-- Model of `T::possible_values(memory, base)` from `read_from_bytes_impl`
(and the identical `u8` impl): iterate `start ∈ 0..(len − size)`
(**exclusive** upper bound) and decode `size` bytes at each `start`.
When `len < size` the `usize` subtraction `len - size` underflows and the
call panics (debug overflow check, or the out-of-bounds slice
`memory[start..start + size]` in release); that is the `none` result. -/
def possible_values (k : ScalarKind) (memory : List Nat) (base : Nat) :
    Option (List (Nat × Int)) :=
  if memory.length < k.size then none
  else some ((List.range (memory.length - k.size)).map
    (fun start => (base + start, k.decode ((memory.drop start).take k.size))))

/-! ## Regions and the OS map table (procmaps, src/main.rs) -/

/-- Model of `procmaps::Path`: a mapped file name, or one of the special
pseudo-paths (`[heap]`, `[stack]`, …).  Anonymous mappings surface as
`MappedFile ""`. -/
inductive MapPath where
  | MappedFile (s : String)
  | Special (kind : String)
deriving DecidableEq, Repr

/-- Model of `procmaps::Map`: one row of `/proc/pid/maps`. -/
structure Map where
  base : Nat
  ceiling : Nat
  readable : Bool
  writable : Bool
  executable : Bool
  pathname : MapPath
deriving DecidableEq, Repr

/-- Model of `MapExt::contains` (src/main.rs): note the **inclusive** ceiling. -/
def Map.contains (m : Map) (addr : Nat) : Bool :=
  decide (m.base ≤ addr) && decide (addr ≤ m.ceiling)

/-- Model of `AddressInfo` (src/main.rs): the writability tag kept with every
candidate. -/
structure AddressInfo where
  writable : Bool
deriving DecidableEq, Repr

/-- Model of `AddressInfo::is_static`. -/
def AddressInfo.is_static (i : AddressInfo) : Bool := !i.writable

/-- Model of `AddressValue<T>` with `T` embedded as `Int`. -/
abbrev AddressValue := AddressInfo × Nat × Int

/-- Model of `CurrentQueryResults<T>`: the `BTreeMap<usize, AddressValue<T>>`
candidate set as an association list with unique keys. -/
abbrev CurrentQueryResults := List (Nat × AddressValue)

/-! ## Filters (src/main.rs) -/

/-- Model of `Filter<T>`; the `BTreeSet` of `IsInValueBox` is a list. -/
inductive Filter where
  | IsEqual (v : Int)
  | InRange (base ceiling : Int)
  | Any
  | ChangedBy (diff : Int)
  | InAddressRanges (ranges : List (Nat × Nat))
  | IsInValueBox (start stop : Nat) (values : List Int)
deriving DecidableEq, Repr

/-- Model of `Filter::matches(result, current_results)`.  The function
is generic over the session type `T` in the source; its `ChangedBy` arm
evaluates `current_value + diff == *value` with `T`'s own `+` and `==`,
so the embedding takes that combined three-place test as the parameter
`changedByTest` — the engine instantiates it with
`ScalarKind.changedByTest` at the session kind. -/
def Filter.matches (changedByTest : Int → Int → Int → Bool) (f : Filter)
    (result : AddressValue)
    (current_results : CurrentQueryResults) : Bool :=
  match f with
  | .IsEqual v => decide (v = result.2.2)
  | .InRange base ceiling =>
      decide (base ≤ result.2.2) && decide (result.2.2 ≤ ceiling)
  | .Any => true
  | .ChangedBy diff =>
      match current_results.lookup result.2.1 with
      | some (_, _, value) => changedByTest result.2.2 diff value
      | none => false
  | .InAddressRanges ranges =>
      ranges.any (fun r => decide (r.1 ≤ result.2.1) && decide (result.2.1 ≤ r.2))
  | .IsInValueBox start stop values =>
      (decide (start ≤ result.2.1) && decide (result.2.1 ≤ stop))
        && values.contains result.2.2

/-! ## Remote memory oracle and remote I/O (src/main.rs) -/

/-- The session's oracle bundle: the cached `/proc/pid/maps` snapshot
(`self.mappings`), the remote process's byte memory (`none` = unreadable
address, i.e. `process_vm_readv` fails touching it), the kernel's
acceptance of writes (`process_vm_writev`), and — for float-kind
sessions only — the IEEE `current + diff == previous` test on bit
patterns used by `ChangedBy` (see `ScalarKind.changedByTest`; unused
for the seven integer kinds, whose arithmetic is interpreted directly). -/
structure Env where
  mappings : List (AddressInfo × Map)
  mem : Nat → Option Nat
  canWrite : Nat → Bool
  floatChangedBy : Int → Int → Int → Bool

/-- Model of `read_memory(pid, a, n)`: all-or-nothing read of `n` bytes at `a`. -/
def readBytes (mem : Nat → Option Nat) (a : Nat) : Nat → Option (List Nat)
  | 0 => some []
  | n + 1 =>
    match mem a, readBytes mem (a + 1) n with
    | some b, some bs => some (b :: bs)
    | _, _ => none

/-- Overwrite `buffer` into memory starting at `address`
(the effect of a successful `process_vm_writev`). -/
def writeBytes (mem : Nat → Option Nat) (address : Nat) :
    List Nat → (Nat → Option Nat)
  | [] => mem
  | b :: bs =>
      writeBytes (fun x => if x = address then some b else mem x) (address + 1) bs

/-- Model of `write_memory(pid, address, buffer)`: all-or-nothing; fails with
`BadWrite` when the kernel refuses any byte. -/
def write_memory (env : Env) (address : Nat) (buffer : List Nat) :
    Except String Env :=
  if (List.range buffer.length).all (fun i => env.canWrite (address + i)) then
    .ok { env with mem := writeBytes env.mem address buffer }
  else
    .error "write error"

/-! ## The scan engine (src/main.rs, `ProcessQuery`) -/

/-- Model of `ProcessQuery::read_at`: locate the containing mapping (strict
ceiling), read `size_of::<T>()` bytes, decode.  `none` models the
`PartialRead` error.  (When `self.mappings` is empty the code first runs
`update_mappings`; `env.mappings` is that refreshed snapshot.) -/
def read_at (k : ScalarKind) (env : Env) (address : Nat) :
    Option AddressValue :=
  match env.mappings.find?
      (fun im => decide (im.2.base ≤ address) && decide (address < im.2.ceiling)) with
  | none => none
  | some im =>
    match readBytes env.mem address k.size with
    | none => none
    | some bytes => some (im.1, address, k.decode bytes)

/-- Model of `ProcessQuery::update_results`: re-read every candidate at its key
address; keep the re-read value, drop candidates whose read fails. -/
def update_results (k : ScalarKind) (env : Env)
    (results : CurrentQueryResults) : CurrentQueryResults :=
  results.filterMap (fun kv => (read_at k env kv.1).map (fun av => (kv.1, av)))

/-- Model of `ProcessQuery::write_at`: encode the value and write it. -/
def write_at (k : ScalarKind) (env : Env) (address : Nat) (value : Int) :
    Except String Env :=
  write_memory env address (k.encode value)

/-- The error values surfaced by `perform_write` (src/error.rs). -/
inductive BetrayalError where
  | BadWrite (msg : String)
deriving DecidableEq, Repr

/-- Model of `ProcessQuery::perform_write`: look the key up; absent keys fail with
`BadWrite("no such address")` before anything is touched; present keys
write through and then `update_results`.  The pair carries the state the
session holds afterwards together with the error, mirroring `&mut self`. -/
def perform_write (k : ScalarKind) (env : Env) (results : CurrentQueryResults)
    (writer : Nat × Int) :
    (Env × CurrentQueryResults) × Option BetrayalError :=
  match results.lookup writer.1 with
  | none => ((env, results), some (.BadWrite "no such address"))
  | some (_info, address, _current) =>
    match write_at k env address writer.2 with
    | .error e => ((env, results), some (.BadWrite e))
    | .ok env' => ((env', update_results k env' results), none)

/-- Model of `itertools::unique_by` with the `seen` set carried explicitly: keep
the first element for every key. -/
def uniqueByAux {β : Type} [DecidableEq β] (key : (AddressInfo × Map) → β)
    (seen : List β) : List (AddressInfo × Map) → List (AddressInfo × Map)
  | [] => []
  | x :: xs =>
    if key x ∈ seen then uniqueByAux key seen xs
    else x :: uniqueByAux key (key x :: seen) xs

/-- Model of `unique_by(base)` then `unique_by(ceiling)` as in `query`. -/
def dedupMappings (mappings : List (AddressInfo × Map)) :
    List (AddressInfo × Map) :=
  uniqueByAux (fun im => im.2.ceiling) []
    (uniqueByAux (fun im => im.2.base) [] mappings)

/-- The region-selection step of `ProcessQuery::query`: deduplicate by
base then ceiling, and for `IsInValueBox` retain only mappings containing
one of the two endpoints. -/
def scannedMappings (mappings : List (AddressInfo × Map)) (filter : Filter) :
    List (AddressInfo × Map) :=
  let m := dedupMappings mappings
  match filter with
  | .IsInValueBox start stop _ =>
      m.filter (fun im => im.2.contains start || im.2.contains stop)
  | _ => m

/-- Model of `Option`-monad `mapM`, written out so its equations are plain. -/
def optMapM {α β : Type} (f : α → Option β) : List α → Option (List β)
  | [] => some []
  | x :: xs =>
    match f x, optMapM f xs with
    | some y, some ys => some (y :: ys)
    | _, _ => none

/-- Model of `ProcessQuery::query`: per scanned mapping, read the whole region
(`PartialRead` is swallowed: that region contributes no candidates),
enumerate `possible_values`, filter against an **empty** previous set
(`dummy_results`).  A panic in any rayon worker (the `possible_values`
underflow) propagates: the whole scan is `none`. -/
def queryScan (env : Env) (k : ScalarKind) (filter : Filter) :
    Option (List AddressValue) :=
  (optMapM (fun im =>
      match readBytes env.mem im.2.base (im.2.ceiling - im.2.base) with
      | none => some []
      | some bytes =>
        (possible_values k bytes im.2.base).map (fun l =>
          (l.map (fun av => (im.1, av.1, av.2))).filter
            (fun r => Filter.matches (k.changedByTest env.floatChangedBy)
              filter r []))
    ) (scannedMappings env.mappings filter)).map List.flatten

/-- Model of `ProcessQuery::perform_new_query`: run the scan, filter the raw
candidates once more against the pre-existing `self.results`, then key
the survivors by address. -/
def perform_new_query (k : ScalarKind) (env : Env) (filter : Filter)
    (results : CurrentQueryResults) : Option CurrentQueryResults :=
  (queryScan env k filter).map (fun l =>
    (l.filter (fun v => Filter.matches (k.changedByTest env.floatChangedBy)
      filter v results)).map
      (fun v => (v.2.1, v)))

/-- Model of `ProcessQuery::perform_query`: on an empty set first run the full
scan; then snapshot the set, `update_results`, and retain the candidates
matching the filter against the snapshot. -/
def perform_query (k : ScalarKind) (env : Env) (filter : Filter)
    (results : CurrentQueryResults) : Option CurrentQueryResults :=
  (if results.isEmpty then perform_new_query k env filter results
   else some results).map (fun results1 =>
    (update_results k env results1).filter
      (fun kv => Filter.matches (k.changedByTest env.floatChangedBy)
        filter kv.2 results1))

/-! ## Static-address resolver (src/main.rs, `AddressInfo::static_location`) -/

/-- Model of `StaticLocation`. -/
structure StaticLocation where
  map_path : String
  offset : Nat
  base : Nat
deriving DecidableEq, Repr

/-- Stable insertion of a map into a base-sorted list (equal bases keep
their original relative order), modelling `itertools::sorted_by_key`. -/
def insertByBase (m : AddressInfo × Map) :
    List (AddressInfo × Map) → List (AddressInfo × Map)
  | [] => [m]
  | x :: xs =>
    if m.2.base ≤ x.2.base then m :: x :: xs else x :: insertByBase m xs

/-- Stable sort by `base` (`sorted_by_key(|(_, m)| m.base)`). -/
def sortedByBase : List (AddressInfo × Map) → List (AddressInfo × Map)
  | [] => []
  | x :: xs => insertByBase x (sortedByBase xs)

/-- Model of `AddressInfo::static_location(pid, address)` with the fresh
`mappings_all_with_unreadable(pid)` snapshot passed as `maps`.

Follows the source step by step: bail out when the tag is **not
writable**; find the index of the mapping containing `address` (strict
ceiling); an anonymous mapping (`MappedFile ""`) directly following the
previous mapping's ceiling starts the walk one entry earlier (`.bss`
handling; at index 0 the `map_index - 1` lookup fails and the `?`
aborts with `None`); slice up to the start, sort by base, reverse, keep
the gap-free prefix of neighbour pairs (each pair contributing its
**first** component), take the first same-pathname group and its last
element as the static base. -/
def static_location (info : AddressInfo) (maps : List (AddressInfo × Map))
    (address : Nat) : Option StaticLocation :=
  if !info.writable then none
  else
    match maps.findIdx?
        (fun im => decide (im.2.base ≤ address) && decide (address < im.2.ceiling)) with
    | none => none
    | some map_index =>
      match maps.get? map_index with
      | none => none
      | some im =>
        let slice_index? : Option Nat :=
          match im.2.pathname with
          | .MappedFile name =>
            if name = "" then
              if map_index = 0 then none
              else
                match maps.get? (map_index - 1) with
                | none => none
                | some prev =>
                  if im.2.base = prev.2.ceiling then some (map_index - 1)
                  else some map_index
            else some map_index
          | _ => none
        match slice_index? with
        | none => none
        | some slice_index =>
          let sliceRev := (sortedByBase (maps.take (slice_index + 1))).reverse
          let contiguous :=
            ((sliceRev.zip sliceRev.tail).takeWhile
              (fun cn => decide (cn.1.2.base = cn.2.2.ceiling))).map Prod.fst
          match contiguous with
          | [] => none
          | c :: rest =>
            let firstGroup :=
              c :: rest.takeWhile (fun mm => decide (mm.2.pathname = c.2.pathname))
            match firstGroup.getLast? with
            | none => none
            | some static_base =>
              match static_base.2.pathname with
              | .MappedFile p =>
                  some ⟨p, address - static_base.2.base, static_base.2.base⟩
              | _ => none

/-! ## Pointer-graph builder (src/main.rs, `build_pointer_tree`) -/

/-- Model of `build_pointer_tree(pid, tree, current, addresses, depth)` with an
explicit recursion-depth allowance `fuel`.

`scan` abstracts `find_in_range(pid, address - depth, address)` followed
by the `try_into` filtering: the pointer candidates discovered for one
frontier address.  The graph is returned as the list of
`(node address, parent address)` insertions.  The source recursion has
**no** depth cap — `depth` is only the value tolerance of the range scan
and is passed unchanged to every recursive call — so the embedding makes
the allowed recursion depth explicit: `none` means the run needs more
than `fuel` levels of recursion; the code's behaviour is the limit over
all `fuel`, and a run that is `none` for every `fuel` does not
terminate. -/
def build_pointer_tree (scan : Nat → List Nat) :
    Nat → Option Nat → List Nat → Option (List (Nat × Option Nat))
  | _, _, [] => some []
  | 0, _, _ :: _ => none
  | fuel + 1, current, address :: rest =>
    match build_pointer_tree scan fuel (some address) (scan address),
        build_pointer_tree scan (fuel + 1) current rest with
    | some sub, some tail => some ((address, current) :: sub ++ tail)
    | _, _ => none

/-! ## Reclass evaluator (src/reclass/config_file.rs) -/

/-- Model of `Field`: the recursive reclass schema.  `Struct` inlines
`ReclassStruct { name, fields }` (an `IndexMap` is an insertion-ordered
association list); `F32`/`F64` are commented out in the source. -/
inductive Field where
  | Padding (n : Nat)
  | U8 | I16 | U16 | I32 | U32 | I64 | U64
  | Pointer32 (child : Field)
  | Pointer64 (child : Field)
  | Struct (name : String) (fields : List (String × Field))
  | SearchValues (pairs : List (Field × String))

/-- Model of `Field::size`. -/
def Field.size : Field → Nat
  | .Padding s => s
  | .I32 => 4
  | .I16 => 2
  | .U8 => 1
  | .Pointer32 _ => 4
  | .Pointer64 _ => 8
  | .Struct _ _ => 0
  | .U16 => 2
  | .U32 => 4
  | .I64 => 8
  | .U64 => 8
  | .SearchValues _ => 0

/-- Model of `ValueResult<T>` with the scalar embedded as `Int`. -/
inductive ValueResult where
  | Ok (info : AddressInfo) (v : Int)
  | Err (msg : String)
  | Padding (n : Nat)
deriving DecidableEq, Repr

/-- Model of `FieldResult`; `ReclassStruct` inlines `ReclassResult`. -/
inductive FieldResult where
  | Padding (n : Nat)
  | U16 (r : ValueResult)
  | I16 (r : ValueResult)
  | U32 (r : ValueResult)
  | I32 (r : ValueResult)
  | U64 (r : ValueResult)
  | I64 (r : ValueResult)
  | U8 (r : ValueResult)
  | F32 (r : ValueResult)
  | F64 (r : ValueResult)
  | Pointer32 (address : Nat) (child : FieldResult)
  | Pointer64 (address : Nat) (child : FieldResult)
  | ReclassStruct (name : String) (fields : List (String × FieldResult))

/-- Model of `ValueResult::info`. -/
def ValueResult.info : ValueResult → Option AddressInfo
  | .Ok i _ => some i
  | .Err _ => none
  | .Padding _ => none

/-- Model of `FieldResult::info`: for a struct, the first field's info. -/
def FieldResult.info : FieldResult → Option AddressInfo
  | .Padding _ => none
  | .U16 r => r.info
  | .U32 r => r.info
  | .U64 r => r.info
  | .I64 r => r.info
  | .I32 r => r.info
  | .I16 r => r.info
  | .U8 r => r.info
  | .F32 r => r.info
  | .F64 r => r.info
  | .Pointer32 _ p => p.info
  | .Pointer64 _ p => p.info
  | .ReclassStruct _ fields =>
    match fields with
    | [] => none
    | (_, r) :: _ => r.info

/-- Model of `ValueResult::compare_value` (`Display` of the scalar is decimal
`toString`). -/
def ValueResult.compare_value : ValueResult → Option String
  | .Ok _ v => some (toString v)
  | .Err _ => none
  | .Padding _ => none

/-- Model of `FieldResult::compare_value`. -/
def FieldResult.compare_value : FieldResult → Option String
  | .U16 v => v.compare_value
  | .I16 v => v.compare_value
  | .U32 v => v.compare_value
  | .I32 v => v.compare_value
  | .U64 v => v.compare_value
  | .I64 v => v.compare_value
  | .U8 v => v.compare_value
  | .F32 v => v.compare_value
  | .F64 v => v.compare_value
  | .Pointer32 v _ => some (toString v)
  | .Pointer64 v _ => some (toString v)
  | .ReclassStruct _ _ => none
  | .Padding _ => none

/-- Model of `reclass::config_file::read_memory::<T>(pid, address)`:
`ProcessQuery::new(pid).read_at(pid, address)` — find the containing
mapping, read `size_of::<T>()` bytes, decode.  The error string is the
`Display` of `BetrayalError::PartialRead`. -/
def readScalar (env : Env) (k : ScalarKind) (address : Nat) :
    Except String (AddressInfo × Int) :=
  match env.mappings.find?
      (fun im => decide (im.2.base ≤ address) && decide (address < im.2.ceiling)) with
  | none => .error "Partial read occured - aborting"
  | some im =>
    match readBytes env.mem address k.size with
    | none => .error "Partial read occured - aborting"
    | some bytes => .ok (im.1, k.decode bytes)

/-- Model of `impl From<BetrayalResult<(AddressInfo, T)>> for ValueResult<T>`. -/
def toValueResult (r : Except String (AddressInfo × Int)) : ValueResult :=
  match r with
  | .ok (i, v) => .Ok i v
  | .error e => .Err ("error :: " ++ e)

/-- The inner loop of the `SearchValues` arm at one `search_address`:
try the `(field evaluation, literal)` pairs **in the given order**
(the caller passes the reversed list, matching `.iter().enumerate().rev()`);
`.inl r` models the early `return result.into()` on the first pair whose
`compare_value` equals the literal, `.inr last` the fall-through with the
updated `last_result`. -/
def tryPairs : List ((Nat → FieldResult) × String) → Nat → FieldResult →
    FieldResult ⊕ FieldResult
  | [], _, last => .inr last
  | (e, value) :: rest, a, _last =>
    let r := e a
    if r.compare_value = some value then .inl r
    else tryPairs rest a r

/-- The outer loop of the `SearchValues` arm: walk the offsets in order,
running `tryPairs` on the reversed pair list at `address + offset`;
return the early result, or `last_result` after the last offset. -/
def searchOffsets (evals : List ((Nat → FieldResult) × String))
    (address : Nat) : FieldResult → List Nat → FieldResult
  | last, [] => last
  | last, off :: rest =>
    match tryPairs evals.reverse (address + off) last with
    | .inl r => r
    | .inr last' => searchOffsets evals address last' rest

mutual

/-- Model of `Field::result(pid, address)`.  The `SearchValues` arm scans
`offset ∈ 0..1000` and, at each offset, the pairs in **reverse**
declaration order, with `last_result` initialised to `Padding(0)`. -/
def Field.result (env : Env) : Field → Nat → FieldResult
  | .Padding s, _ => .Padding s
  | .U8, a => .U8 (toValueResult (readScalar env .u8 a))
  | .I16, a => .I16 (toValueResult (readScalar env .i16 a))
  | .U16, a => .U16 (toValueResult (readScalar env .u16 a))
  | .I32, a => .I32 (toValueResult (readScalar env .i32 a))
  | .U32, a => .U32 (toValueResult (readScalar env .u32 a))
  | .I64, a => .I64 (toValueResult (readScalar env .i64 a))
  | .U64, a => .U64 (toValueResult (readScalar env .u64 a))
  | .Pointer32 child, a =>
    .Pointer32 a
      (match readScalar env .u32 a with
       | .ok (_i, p) => Field.result env child p.toNat
       | .error e => .U32 (.Err ("error :: " ++ e)))
  | .Pointer64 child, a =>
    .Pointer64 a
      (match readScalar env .u64 a with
       | .ok (_i, p) => Field.result env child p.toNat
       | .error e => .U64 (.Err ("error :: " ++ e)))
  | .Struct name fields, a => .ReclassStruct name (structResult env fields a)
  | .SearchValues pairs, a =>
    searchOffsets
      (pairs.attach.map (fun p =>
        ((fun addr => Field.result env p.val.1 addr), p.val.2)))
      a (.Padding 0) (List.range 1000)
termination_by f _a => sizeOf f
decreasing_by
  all_goals simp_wf
  all_goals first
  | omega
  | (have h := List.sizeOf_lt_of_mem p.property
     have h2 : sizeOf p.val.1 < sizeOf p.val := by
       obtain ⟨⟨f1, s1⟩, _⟩ := p
       simp
       try omega
     omega)

/-- Model of `ReclassStruct::result`: lay fields out at increasing offsets
(`base += field.size()`), evaluate each, and render the
`"[{@}{address}] :: {name}"` key. -/
def structResult (env : Env) : List (String × Field) → Nat →
    List (String × FieldResult)
  | [], _ => []
  | (n, f) :: rest, base =>
    let r := Field.result env f base
    let isStatic := (FieldResult.info r).elim false AddressInfo.is_static
    ("[" ++ (if isStatic then "@" else "") ++ toString base ++ "] :: " ++ n, r)
      :: structResult env rest (base + f.size)
termination_by l _b => sizeOf l
decreasing_by
  all_goals simp_wf
  all_goals omega

end

/-- The per-pair evaluators of a `SearchValues` schema: each pair's
sub-schema as the function `address ↦ result`, carried with its literal. -/
def evalsOf (env : Env) (pairs : List (Field × String)) :
    List ((Nat → FieldResult) × String) :=
  pairs.map (fun x => ((fun a => Field.result env x.1 a), x.2))

/-- All attempts a `SearchValues` evaluation makes, flattened in
lexicographic order: offsets `0..1000` increasing, and within one offset
the pairs in the order produced by `order`. -/
def searchAttempts (evals : List ((Nat → FieldResult) × String))
    (address : Nat)
    (order : List ((Nat → FieldResult) × String) →
      List ((Nat → FieldResult) × String)) : List (FieldResult × String) :=
  (List.range 1000).flatMap (fun off =>
    (order evals).map (fun el => (el.1 (address + off), el.2)))

/-- Declarative description of a `SearchValues` evaluation: the first
attempt (in the order of `searchAttempts`) whose `compare_value` string
equals its literal; otherwise the last attempt; `Padding(0)` when there
are no attempts at all. -/
def searchValuesSpecBy (evals : List ((Nat → FieldResult) × String))
    (address : Nat)
    (order : List ((Nat → FieldResult) × String) →
      List ((Nat → FieldResult) × String)) : FieldResult :=
  ((searchAttempts evals address order).find?
      (fun rl => decide (rl.1.compare_value = some rl.2))).elim
    (((searchAttempts evals address order).getLast?).elim
      (FieldResult.Padding 0) Prod.fst)
    Prod.fst

/-- The claim's reading of `SearchValues`: pairs tried in **declaration
order** at each offset. -/
def searchValuesSpecDecl (evals : List ((Nat → FieldResult) × String))
    (address : Nat) : FieldResult :=
  searchValuesSpecBy evals address id

/-- What the source does: pairs tried in **reverse declaration order**
at each offset. -/
def searchValuesSpecRev (evals : List ((Nat → FieldResult) × String))
    (address : Nat) : FieldResult :=
  searchValuesSpecBy evals address List.reverse

/-! ## Concrete fixtures for witnesses and counterexamples -/

/-- A 100-byte readable+writable fixture region. -/
def mapA : Map := ⟨0, 100, true, true, false, .MappedFile "fixture"⟩

/-- Session fixture: one region, every byte reads 7, all writes accepted. -/
def envA : Env :=
  ⟨[(⟨true⟩, mapA)], fun a => if a < 100 then some 7 else none, fun _ => true,
   fun _ _ _ => false⟩

/-- Model of `envA` after writing the `u8` value 1 at address 5. -/
def envAw : Env :=
  { envA with mem := writeBytes envA.mem 5 (ScalarKind.encode .u8 1) }

/-- A one-candidate result set at address 5. -/
def resultsA : CurrentQueryResults := [(5, (⟨true⟩, 5, 7))]

/-- A 2-byte region: smaller than `size_of::<u32>()`. -/
def mapTiny : Map := ⟨0, 2, true, true, false, .MappedFile "tiny"⟩

/-- Session fixture around `mapTiny`. -/
def envTiny : Env :=
  ⟨[(⟨true⟩, mapTiny)], fun a => if a < 2 then some 0 else none, fun _ => true,
   fun _ _ _ => false⟩

/-- Two contiguous non-writable file-backed regions of `/bin/foo`. -/
def mapsC4 : List (AddressInfo × Map) :=
  [(⟨false⟩, ⟨100, 200, true, false, false, .MappedFile "/bin/foo"⟩),
   (⟨false⟩, ⟨200, 300, true, false, false, .MappedFile "/bin/foo"⟩)]

/-- A readable region strictly inside the address box `[0, 100]`. -/
def mapC5 : Map := ⟨10, 20, true, true, false, .MappedFile "lib"⟩

/-- Map-table fixture around `mapC5`. -/
def mappingsC5 : List (AddressInfo × Map) := [(⟨true⟩, mapC5)]

/-- Memory fixture for the reclass search: byte 5 at address 0, zeroes
up to 100. -/
def envC6 : Env :=
  ⟨[(⟨true⟩, ⟨0, 100, true, true, false, .MappedFile "heap"⟩)],
   fun a => if a = 0 then some 5 else if a < 100 then some 0 else none,
   fun _ => true, fun _ _ _ => false⟩

/-- A `SearchValues` schema whose two pairs both match at offset 0 but
produce distinguishable results. -/
def pairsC6 : List (Field × String) := [(.U8, "5"), (.U16, "5")]

end Betrayal

/-! # Theorems -/

namespace Betrayal

theorem decodeLE_cons (b : Nat) (l : List Nat) :
    decodeLE (b :: l) = b + 256 * decodeLE l := rfl

theorem length_encodeLE (n v : Nat) : (encodeLE n v).length = n := by
  induction n generalizing v with
  | zero => rfl
  | succ n ih => simp [encodeLE, ih]

theorem decodeLE_encodeLE (n v : Nat) (h : v < 256 ^ n) :
    decodeLE (encodeLE n v) = v := by
  induction n generalizing v with
  | zero =>
    simp only [pow_zero, Nat.lt_one_iff] at h
    simp [encodeLE, decodeLE, h]
  | succ n ih =>
    have hdiv : v / 256 < 256 ^ n := by
      rw [Nat.div_lt_iff_lt_mul (by norm_num : 0 < 256)]
      calc v < 256 ^ (n + 1) := h
        _ = 256 ^ n * 256 := by ring
    rw [encodeLE, decodeLE_cons, ih _ hdiv]
    omega

theorem scalar_size_pos (k : ScalarKind) : 1 ≤ k.size := by
  cases k <;> simp [ScalarKind.size]

/-- C9: for every scalar kind among u8, i16, u16, i32, u32, i64, u64,
f32, f64 (the float kinds carried as their bit patterns, which is what
`write_f32`/`read_f32` transport and what determines `OrderedFloat`
equality on identical buffers), decoding the `write_bytes` encoding of an
in-range value gives the value back: `decode(encode(v)) == v`. -/
theorem c9_scalar_roundtrip (k : ScalarKind) (v : Int) (h : k.inRange v) :
    k.decode (k.encode v) = v := by
  have hs := scalar_size_pos k
  have h256 : (256 : Nat) ^ k.size = 2 ^ (8 * k.size) := by
    rw [show (256 : Nat) = 2 ^ 8 by norm_num, ← pow_mul]
  have hpow_pos : (0 : Int) < 2 ^ (8 * k.size) := by positivity
  have hcast : ((2 ^ (8 * k.size) : Nat) : Int) = 2 ^ (8 * k.size) := by
    push_cast
    ring
  have hmod_nonneg : 0 ≤ v % 2 ^ (8 * k.size) :=
    Int.emod_nonneg v (ne_of_gt hpow_pos)
  have hmod_lt : v % 2 ^ (8 * k.size) < 2 ^ (8 * k.size) :=
    Int.emod_lt_of_pos v hpow_pos
  have htoNat_lt : (v % 2 ^ (8 * k.size)).toNat < 256 ^ k.size := by
    rw [h256]
    omega
  have hdec : decodeLE (k.encode v) = (v % 2 ^ (8 * k.size)).toNat := by
    unfold ScalarKind.encode
    exact decodeLE_encodeLE _ _ htoNat_lt
  have hsplit : (2 : Int) ^ (8 * k.size) = 2 * 2 ^ (8 * k.size - 1) := by
    calc (2 : Int) ^ (8 * k.size) = 2 ^ (8 * k.size - 1 + 1) := by
          rw [show 8 * k.size - 1 + 1 = 8 * k.size by omega]
      _ = 2 ^ (8 * k.size - 1) * 2 := pow_succ 2 _
      _ = 2 * 2 ^ (8 * k.size - 1) := by ring
  have hI1 : (0 : Int) < 2 ^ (8 * k.size - 1) := by positivity
  have hcast1 : ((2 ^ (8 * k.size - 1) : Nat) : Int) = 2 ^ (8 * k.size - 1) := by
    push_cast
    ring
  unfold ScalarKind.decode
  rw [hdec]
  unfold ScalarKind.inRange at h
  by_cases hsg : k.signed = true
  · rw [if_pos hsg] at h
    rcases Int.lt_or_le v 0 with hv | hv
    · -- negative: the residue is v + 2^w, in the upper half
      have hmodv : v % 2 ^ (8 * k.size) = v + 2 ^ (8 * k.size) := by
        have h9 : (v + 2 ^ (8 * k.size) * 1) % 2 ^ (8 * k.size) =
            v % 2 ^ (8 * k.size) :=
          Int.add_mul_emod_self_left v (2 ^ (8 * k.size)) 1
        rw [mul_one] at h9
        rw [← h9]
        exact Int.emod_eq_of_lt (by omega) (by omega)
      have hcond : 2 ^ (8 * k.size - 1) ≤ (v % 2 ^ (8 * k.size)).toNat := by
        rw [hmodv]
        omega
      rw [if_pos ⟨hsg, hcond⟩, hmodv]
      omega
    · -- non-negative: the residue is v itself, in the lower half
      have hmodv : v % 2 ^ (8 * k.size) = v :=
        Int.emod_eq_of_lt hv (by omega)
      have hcond : ¬(2 ^ (8 * k.size - 1) ≤ (v % 2 ^ (8 * k.size)).toNat) := by
        rw [hmodv]
        omega
      rw [if_neg (fun hc => hcond hc.2), hmodv]
      omega
  · rw [if_neg hsg] at h
    have hmodv : v % 2 ^ (8 * k.size) = v :=
      Int.emod_eq_of_lt h.1 h.2
    rw [if_neg (fun hc => hsg hc.1), hmodv]
    omega

/-- C9 witness: the signed 32-bit value −7 survives the round-trip. -/
theorem c9_scalar_roundtrip_witness :
    ScalarKind.inRange .i32 (-7) ∧
    ScalarKind.decode .i32 (ScalarKind.encode .i32 (-7)) = -7 :=
  ⟨by decide, c9_scalar_roundtrip .i32 (-7) (by decide)⟩

/-- C1 counterexample: an `i32` scan of a 5-byte buffer yields 1
candidate (offsets `0..(5 − 4)`, **exclusive**), not
`5 − 4 + 1 = 2` as the claim states. -/
theorem c1_counterexample :
    (possible_values .i32 [1, 2, 3, 4, 5] 100).map List.length = some 1 ∧
    ([1, 2, 3, 4, 5] : List Nat).length - ScalarKind.size .i32 + 1 = 2 := by
  constructor
  · rfl
  · decide

/-- C1 (amended): when `|bytes| ≥ size_of(T)`, `possible_values(bytes,
base)` yields exactly `|bytes| − size_of(T)` entries, one for every
offset `off ∈ [0, |bytes| − size_of(T))` (exclusive upper bound), each
entry being `(base + off, value decoded at off)`. -/
theorem c1_possible_values_enumeration (k : ScalarKind) (memory : List Nat)
    (base : Nat) (h : k.size ≤ memory.length) :
    ∃ l, possible_values k memory base = some l ∧
      l.length = memory.length - k.size ∧
      ∀ i, i < memory.length - k.size →
        l[i]? = some (base + i, k.decode ((memory.drop i).take k.size)) := by
  refine ⟨(List.range (memory.length - k.size)).map
      (fun start => (base + start, k.decode ((memory.drop start).take k.size))),
      ?_, by simp, ?_⟩
  · unfold possible_values
    rw [if_neg (by omega)]
  · intro i hi
    simp [List.getElem?_map, List.getElem?_range, hi]

/-- C1 witness: a `u8` scan of a 2-byte buffer. -/
theorem c1_possible_values_enumeration_witness :
    ScalarKind.size .u8 ≤ ([9, 9] : List Nat).length ∧
    ∃ l, possible_values .u8 [9, 9] 0 = some l ∧
      l.length = ([9, 9] : List Nat).length - ScalarKind.size .u8 ∧
      ∀ i, i < ([9, 9] : List Nat).length - ScalarKind.size .u8 →
        l[i]? = some (0 + i,
          ScalarKind.decode .u8 ((([9, 9] : List Nat).drop i).take
            (ScalarKind.size .u8))) :=
  ⟨by decide, c1_possible_values_enumeration .u8 [9, 9] 0 (by decide)⟩

theorem optMapM_eq_none_of_mem {α β : Type} (f : α → Option β)
    (l : List α) (x : α) (hx : x ∈ l) (hfx : f x = none) :
    optMapM f l = none := by
  induction l with
  | nil => cases hx
  | cons y ys ih =>
    rcases List.mem_cons.mp hx with rfl | hmem
    · simp [optMapM, hfx]
    · unfold optMapM
      rw [ih hmem]
      cases f y <;> rfl

/-- C10: `possible_values` is not total at the public interface.  When
`|bytes| < size_of(T)` the `usize` bound `|bytes| − size_of(T)`
underflows and the call panics (modelled `none`) instead of returning an
empty sequence; when `|bytes| = size_of(T)` it yields zero candidates;
and a full scan whose (deduplicated, retained) region list contains a
readable region smaller than `size_of(T)` panics the scanning worker
(the whole `query` is `none`) rather than contributing zero candidates. -/
theorem c10_small_buffer_panics :
    (∀ (k : ScalarKind) (memory : List Nat) (base : Nat),
        memory.length < k.size → possible_values k memory base = none) ∧
    (∀ (k : ScalarKind) (memory : List Nat) (base : Nat),
        memory.length = k.size → possible_values k memory base = some []) ∧
    (∀ (env : Env) (k : ScalarKind) (filter : Filter)
        (im : AddressInfo × Map) (bytes : List Nat),
        im ∈ scannedMappings env.mappings filter →
        readBytes env.mem im.2.base (im.2.ceiling - im.2.base) = some bytes →
        bytes.length < k.size →
        queryScan env k filter = none) := by
  refine ⟨?_, ?_, ?_⟩
  · intro k memory base h
    unfold possible_values
    rw [if_pos h]
  · intro k memory base h
    unfold possible_values
    rw [if_neg (by omega)]
    simp [h]
  · intro env k filter im bytes hmem hread hlen
    unfold queryScan
    rw [optMapM_eq_none_of_mem _ _ im hmem ?_]
    · rfl
    · simp only [hread]
      unfold possible_values
      rw [if_pos hlen]
      rfl

theorem optMapM_mem_some {α β : Type} (f : α → Option β) (l : List α)
    (rs : List β) (h : optMapM f l = some rs) :
    ∀ y ∈ rs, ∃ x ∈ l, f x = some y := by
  induction l generalizing rs with
  | nil =>
    unfold optMapM at h
    cases h
    intro y hy
    cases hy
  | cons z zs ih =>
    unfold optMapM at h
    cases hz : f z with
    | none => rw [hz] at h; cases h
    | some y0 =>
      rw [hz] at h
      cases hzs : optMapM f zs with
      | none => rw [hzs] at h; cases h
      | some ys =>
        rw [hzs] at h
        cases h
        intro y hy
        rcases List.mem_cons.mp hy with rfl | hmem
        · exact ⟨z, List.mem_cons_self _ _, hz⟩
        · rcases ih ys hzs y hmem with ⟨x, hx, hfx⟩
          exact ⟨x, List.mem_cons_of_mem _ hx, hfx⟩

theorem flatten_eq_nil_of_all {β : Type} (rs : List (List β))
    (h : ∀ y ∈ rs, y = []) : rs.flatten = [] := by
  induction rs with
  | nil => rfl
  | cons y ys ih =>
    have hy := h y (List.mem_cons_self _ _)
    subst hy
    simpa using ih (fun z hz => h z (List.mem_cons_of_mem _ hz))

/-- C2: in refinement mode (`perform_query` on a non-empty candidate
set) the result's address keys are a subset of the prior set's keys:
`update_results` only rewrites or drops existing entries, and `retain`
only removes. -/
theorem c2_refinement_monotone (k : ScalarKind) (env : Env) (filter : Filter)
    (results : CurrentQueryResults) (h : results ≠ []) :
    ∃ l, perform_query k env filter results = some l ∧
      ∀ kv ∈ l, ∃ av, (kv.1, av) ∈ results := by
  have hne : results.isEmpty = false := by
    cases results
    · exact absurd rfl h
    · rfl
  refine ⟨(update_results k env results).filter
      (fun kv => Filter.matches (k.changedByTest env.floatChangedBy)
        filter kv.2 results), ?_, ?_⟩
  · simp [perform_query, hne]
  · intro kv hkv
    have h1 : kv ∈ update_results k env results := List.mem_of_mem_filter hkv
    unfold update_results at h1
    rcases List.mem_filterMap.mp h1 with ⟨x, hx, hfx⟩
    rcases Option.map_eq_some'.mp hfx with ⟨av, _hav, heq⟩
    refine ⟨x.2, ?_⟩
    rw [← heq]
    simpa using hx

/-- C2 witness. -/
theorem c2_refinement_monotone_witness :
    resultsA ≠ [] ∧
    ∃ l, perform_query .u8 envA .Any resultsA = some l ∧
      ∀ kv ∈ l, ∃ av, (kv.1, av) ∈ resultsA :=
  ⟨by decide, c2_refinement_monotone .u8 envA .Any resultsA (by decide)⟩

theorem matches_changedBy_nil (changedByTest : Int → Int → Int → Bool)
    (d : Int) (r : AddressValue) :
    Filter.matches changedByTest (.ChangedBy d) r [] = false := rfl

/-- C3: `ChangedBy(δ)` matches a candidate `(info, a, v)` against the
previous set `P` iff `P` holds an entry at `a` whose stored value passes
the session kind's `v + δ == stored` test (`current_value + diff ==
*value` in the source).  For the seven integer kinds that test is fully
interpreted: two's-complement **wrapping** addition (what `T + T` does
in a release build; a debug build panics on overflow) followed by exact
equality — so e.g. a `u8` candidate 255 changed-by 1 matches a previous
value 0; for the float kinds the IEEE test is the `floatChangedBy`
oracle.  The filter is false whenever `a` is absent from `P`, always
false against the synthetic empty previous set, and an initial scan
(`query`, which filters every raw candidate against the empty
`dummy_results`) under `ChangedBy` produces no candidates. -/
theorem c3_changed_by_semantics (k : ScalarKind) (env : Env)
    (info : AddressInfo) (a : Nat) (v d : Int) (P : CurrentQueryResults) :
    (Filter.matches (k.changedByTest env.floatChangedBy) (.ChangedBy d)
        (info, a, v) P = true ↔
      ∃ i' a' v', P.lookup a = some (i', a', v') ∧
        k.changedByTest env.floatChangedBy v d v' = true) ∧
    (P.lookup a = none →
      Filter.matches (k.changedByTest env.floatChangedBy) (.ChangedBy d)
        (info, a, v) P = false) ∧
    Filter.matches (k.changedByTest env.floatChangedBy) (.ChangedBy d)
      (info, a, v) [] = false ∧
    (∀ l, queryScan env k (.ChangedBy d) = some l → l = []) ∧
    (k ≠ .f32 → k ≠ .f64 → ∀ x y p : Int,
      k.changedByTest env.floatChangedBy x y p =
        decide (k.wrapAdd x y = p)) := by
  refine ⟨?_, ?_, matches_changedBy_nil _ d _, ?_, ?_⟩
  · unfold Filter.matches
    cases hP : P.lookup a with
    | none => simp
    | some t =>
      obtain ⟨i', a', v'⟩ := t
      constructor
      · intro he
        exact ⟨i', a', v', rfl, he⟩
      · rintro ⟨i'', a'', v'', heq, hv⟩
        cases heq
        exact hv
  · intro hP
    unfold Filter.matches
    rw [hP]
  · intro l hq
    unfold queryScan at hq
    rcases Option.map_eq_some'.mp hq with ⟨rs, hrs, hfl⟩
    have hall : ∀ y ∈ rs, y = [] := by
      intro y hy
      rcases optMapM_mem_some _ _ rs hrs y hy with ⟨x, _hx, hfx⟩
      revert hfx
      cases hbytes : readBytes env.mem x.2.base (x.2.ceiling - x.2.base) with
      | none =>
        intro hfx
        simp only [hbytes] at hfx
        cases hfx
        rfl
      | some bytes =>
        intro hfx
        simp only [hbytes] at hfx
        rcases Option.map_eq_some'.mp hfx with ⟨pv, _hpv, hg⟩
        rw [← hg]
        exact List.filter_eq_nil_iff.mpr
          (fun r _hr => by rw [matches_changedBy_nil]; exact fun hc => by cases hc)
    rw [← hfl]
    exact flatten_eq_nil_of_all rs hall
  · intro h32 h64 x y p
    cases k
    case f32 => exact absurd rfl h32
    case f64 => exact absurd rfl h64
    all_goals rfl

/-- C3 witness at the `u8` kind: a candidate with value 255 changed-by 1
matches a previous value of 0 at the same address (the wrapping sum
`255 + 1 ≡ 0 (mod 2^8)`); an in-range case (3 changed-by 2 against
previous 5) also matches; an address absent from the previous set does
not; and the `u8` test is wrapping-add-then-compare. -/
theorem c3_changed_by_semantics_witness :
    Filter.matches (ScalarKind.changedByTest .u8 envA.floatChangedBy)
      (.ChangedBy 1) (⟨true⟩, 5, 255) [(5, (⟨true⟩, 5, 0))] = true ∧
    Filter.matches (ScalarKind.changedByTest .u8 envA.floatChangedBy)
      (.ChangedBy 2) (⟨true⟩, 5, 3) [(5, (⟨true⟩, 5, 5))] = true ∧
    ([(5, ((⟨true⟩ : AddressInfo), 5, (5 : Int)))].lookup 6 = none) ∧
    Filter.matches (ScalarKind.changedByTest .u8 envA.floatChangedBy)
      (.ChangedBy 2) (⟨true⟩, 6, 3) [(5, (⟨true⟩, 5, 5))] = false ∧
    ScalarKind.changedByTest .u8 envA.floatChangedBy 255 1 0 =
      decide (ScalarKind.wrapAdd .u8 255 1 = 0) :=
  ⟨(c3_changed_by_semantics .u8 envA ⟨true⟩ 5 255 1
      [(5, (⟨true⟩, 5, 0))]).1.mpr ⟨⟨true⟩, 5, 0, by decide, by decide⟩,
   (c3_changed_by_semantics .u8 envA ⟨true⟩ 5 3 2
      [(5, (⟨true⟩, 5, 5))]).1.mpr ⟨⟨true⟩, 5, 5, by decide, by decide⟩,
   by decide,
   (c3_changed_by_semantics .u8 envA ⟨true⟩ 6 3 2
      [(5, (⟨true⟩, 5, 5))]).2.1 (by decide),
   (c3_changed_by_semantics .u8 envA ⟨true⟩ 0 0 0 []).2.2.2.2
      (by decide) (by decide) 255 1 0⟩

theorem uniqueByAux_subset {β : Type} [DecidableEq β]
    (key : (AddressInfo × Map) → β) (seen : List β)
    (l : List (AddressInfo × Map)) (x : AddressInfo × Map)
    (h : x ∈ uniqueByAux key seen l) : x ∈ l := by
  induction l generalizing seen with
  | nil => exact absurd h (by simp [uniqueByAux])
  | cons y ys ih =>
    unfold uniqueByAux at h
    by_cases hk : key y ∈ seen
    · rw [if_pos hk] at h
      exact List.mem_cons_of_mem _ (ih _ h)
    · rw [if_neg hk] at h
      rcases List.mem_cons.mp h with rfl | h2
      · exact List.mem_cons_self _ _
      · exact List.mem_cons_of_mem _ (ih _ h2)

/-- C5 counterexample: a readable region lying strictly inside the value
box `[0, 100]` (so it overlaps the interval) contains neither endpoint
and is **not** scanned by an `IsInValueBox(0, 100, {1})` query. -/
theorem c5_counterexample :
    scannedMappings mappingsC5 (.IsInValueBox 0 100 [1]) = [] ∧
    mapC5.readable = true ∧
    0 ≤ mapC5.base ∧ mapC5.ceiling ≤ 100 ∧
    mapC5.contains 0 = false ∧ mapC5.contains 100 = false := by
  decide

/-- C5 (amended): for an `IsInValueBox(lo, hi, _)` scan the region set
is exactly the mappings surviving deduplication by base then ceiling —
readable or not — that contain the endpoint `lo` or the endpoint `hi`
(inclusively, `base ≤ a ≤ ceiling`); deduplication only drops rows, and
regions overlapping `[lo, hi]` without holding an endpoint are skipped. -/
theorem c5_value_box_region_selection (mappings : List (AddressInfo × Map))
    (lo hi : Nat) (vals : List Int) (im : AddressInfo × Map) :
    (im ∈ scannedMappings mappings (.IsInValueBox lo hi vals) ↔
      im ∈ dedupMappings mappings ∧
        (im.2.contains lo = true ∨ im.2.contains hi = true)) ∧
    (im ∈ dedupMappings mappings → im ∈ mappings) ∧
    (im.2.contains lo = true ↔ im.2.base ≤ lo ∧ lo ≤ im.2.ceiling) := by
  refine ⟨?_, ?_, ?_⟩
  · unfold scannedMappings
    simp [List.mem_filter]
  · intro h
    unfold dedupMappings at h
    exact uniqueByAux_subset _ _ _ _ (uniqueByAux_subset _ _ _ _ h)
  · unfold Map.contains
    simp

/-- C5 witness: a region containing the endpoint `lo = 10` is scanned. -/
theorem c5_value_box_region_selection_witness :
    (⟨true⟩, mapA) ∈
      scannedMappings [((⟨true⟩ : AddressInfo), mapA)] (.IsInValueBox 10 100 []) ∧
    (⟨true⟩, mapA) ∈ [((⟨true⟩ : AddressInfo), mapA)] :=
  ⟨(c5_value_box_region_selection [(⟨true⟩, mapA)] 10 100 [] (⟨true⟩, mapA)).1.mpr
      ⟨by decide, Or.inl (by decide)⟩,
   (c5_value_box_region_selection [(⟨true⟩, mapA)] 10 100 [] (⟨true⟩, mapA)).2.1
      (by decide)⟩

theorem writeBytes_out (mem : Nat → Option Nat) (a x : Nat) (buf : List Nat)
    (hx : x < a) : writeBytes mem a buf x = mem x := by
  induction buf generalizing mem a with
  | nil => rfl
  | cons b bs ih =>
    unfold writeBytes
    rw [ih _ _ (by omega)]
    simp [show ¬(x = a) by omega]

theorem readBytes_writeBytes (mem : Nat → Option Nat) (a : Nat)
    (buf : List Nat) :
    readBytes (writeBytes mem a buf) a buf.length = some buf := by
  induction buf generalizing mem a with
  | nil => rfl
  | cons b bs ih =>
    rw [List.length_cons]
    unfold writeBytes
    unfold readBytes
    rw [writeBytes_out _ _ _ _ (by omega)]
    rw [ih]
    simp

/-- C8: `perform_write(a, v)` on a key `a` absent from the candidate set
fails with `BadWrite("no such address")` and leaves the session (the
candidate set and the remote memory) untouched; on a present key it
writes the encoded value at the stored address (the bytes there read
back as `encode(v)`) and then refreshes via `update_results`. -/
theorem c8_perform_write (k : ScalarKind) (env : Env)
    (results : CurrentQueryResults) (w : Nat × Int) :
    (results.lookup w.1 = none →
      perform_write k env results w =
        ((env, results), some (.BadWrite "no such address"))) ∧
    (∀ info a cv env', results.lookup w.1 = some (info, a, cv) →
      write_at k env a w.2 = .ok env' →
      perform_write k env results w =
        ((env', update_results k env' results), none) ∧
      readBytes env'.mem a (k.encode w.2).length = some (k.encode w.2)) := by
  constructor
  · intro h
    unfold perform_write
    rw [h]
  · intro info a cv env' hlook hwrite
    constructor
    · unfold perform_write
      simp only [hlook]
      rw [hwrite]
    · unfold write_at write_memory at hwrite
      split_ifs at hwrite
      cases hwrite
      exact readBytes_writeBytes env.mem a (k.encode w.2)

/-- C8 witness: address 99 is absent from `resultsA` (error, no state
change); address 5 is present, and after the accepted write of `u8` 1
the bytes at 5 read back as the encoding of 1. -/
theorem c8_perform_write_witness :
    resultsA.lookup 99 = none ∧
    perform_write .u8 envA resultsA (99, 1) =
      ((envA, resultsA), some (.BadWrite "no such address")) ∧
    readBytes envAw.mem 5 (ScalarKind.encode .u8 1).length =
      some (ScalarKind.encode .u8 1) :=
  ⟨by decide,
   (c8_perform_write .u8 envA resultsA (99, 1)).1 (by decide),
   ((c8_perform_write .u8 envA resultsA (5, 1)).2 ⟨true⟩ 5 7 envAw
      (by decide) rfl).2⟩

/-- C4 counterexample: address 250 lies in a non-writable file-backed
region of `/bin/foo`, yet `static_location` returns `None` for its
(non-writable) `AddressInfo`; with the writability flag flipped the very
same computation produces a `file+offset` rendering.  The full
computation therefore does **not** run for read-only file-backed
regions, contrary to the claim. -/
theorem c4_counterexample :
    static_location ⟨false⟩ mapsC4 250 = none ∧
    static_location ⟨true⟩ mapsC4 250 = some ⟨"/bin/foo", 50, 200⟩ ∧
    mapsC4.map (fun im => (im.2.pathname, im.2.writable)) =
      [(.MappedFile "/bin/foo", false), (.MappedFile "/bin/foo", false)] := by
  decide

/-- C4 (amended): `static_location` bails out with `None` whenever the
candidate's `AddressInfo` is **not** writable — the `file+offset`
computation runs only for writable regions; `is_static()` holds exactly
when the region is not writable. -/
theorem c4_static_location_writable_only (info : AddressInfo)
    (maps : List (AddressInfo × Map)) (address : Nat) :
    (info.writable = false → static_location info maps address = none) ∧
    info.is_static = !info.writable := by
  constructor
  · intro h
    simp [static_location, h]
  · rfl

/-- C4 witness. -/
theorem c4_static_location_writable_only_witness :
    (⟨false⟩ : AddressInfo).writable = false ∧
    static_location ⟨false⟩ mapsC4 123 = none ∧
    AddressInfo.is_static ⟨false⟩ = !((⟨false⟩ : AddressInfo).writable) :=
  ⟨rfl,
   (c4_static_location_writable_only ⟨false⟩ mapsC4 123).1 rfl,
   (c4_static_location_writable_only ⟨false⟩ mapsC4 123).2⟩

theorem build_pointer_tree_selfloop (fuel : Nat) (current : Option Nat) :
    build_pointer_tree (fun a => [a]) fuel current [7] = none := by
  induction fuel generalizing current with
  | zero => simp [build_pointer_tree]
  | succ n ih => simp [build_pointer_tree, ih]

/-- C7 counterexample: with a scan oracle under which address 7 holds a
pointer to itself (a perfectly possible remote-memory state), the
builder's recursion is still running after 1000 levels — there is no
recursion-depth cap (let alone the claimed default of 1), so
`pointer_map` does not always return a finite graph: each level again
recurses on the same address for ever. -/
theorem c7_counterexample :
    build_pointer_tree (fun a => [a]) 1000 none [7] = none :=
  build_pointer_tree_selfloop 1000 none

/-- C7 (amended): `build_pointer_tree` has no recursion-depth cap: the
`depth` argument is only the value tolerance of each range scan and is
passed unchanged to every recursive call; the recursion ends only by
natural exhaustion of pointer candidates, and when it does finish the
resulting graph is independent of any recursion-depth allowance
(raising the allowance cannot change a completed result). -/
theorem c7_no_depth_cap (scan : Nat → List Nat) :
    ∀ (fuel : Nat) (current : Option Nat) (addrs : List Nat)
      (g : List (Nat × Option Nat)),
      build_pointer_tree scan fuel current addrs = some g →
      build_pointer_tree scan (fuel + 1) current addrs = some g := by
  intro fuel
  induction fuel with
  | zero =>
    intro current addrs g h
    cases addrs with
    | nil => simpa [build_pointer_tree] using h
    | cons a rest => simp [build_pointer_tree] at h
  | succ n ih =>
    intro current addrs g h
    induction addrs generalizing g with
    | nil => simpa [build_pointer_tree] using h
    | cons a rest ih2 =>
      rw [build_pointer_tree] at h
      cases h1 : build_pointer_tree scan n (some a) (scan a) with
      | none => rw [h1] at h; cases h
      | some sub =>
        cases h2 : build_pointer_tree scan (n + 1) current rest with
        | none => rw [h1, h2] at h; cases h
        | some tail =>
          rw [h1, h2] at h
          have hsub := ih (some a) (scan a) sub h1
          have htail := ih2 tail h2
          rw [build_pointer_tree, hsub, htail]
          exact h

/-- C7 witness: a run that exhausts its candidates at depth 1 keeps the
same finite graph under a larger allowance. -/
theorem c7_no_depth_cap_witness :
    build_pointer_tree (fun _ => ([] : List Nat)) 1 none [5] =
      some [(5, none)] ∧
    build_pointer_tree (fun _ => ([] : List Nat)) 2 none [5] =
      some [(5, none)] := by
  have h1 : build_pointer_tree (fun _ => ([] : List Nat)) 1 none [5] =
      some [(5, none)] := by
    simp [build_pointer_tree]
  exact ⟨h1, c7_no_depth_cap _ 1 none [5] [(5, none)] h1⟩

theorem result_searchValues (env : Env) (pairs : List (Field × String))
    (a : Nat) :
    Field.result env (.SearchValues pairs) a =
      searchOffsets (evalsOf env pairs) a (.Padding 0) (List.range 1000) := by
  rw [Field.result]
  congr 1
  exact List.attach_map_val pairs
    (fun x => ((fun addr => Field.result env x.1 addr), x.2))

theorem searchOffsets_cons_inl {evals : List ((Nat → FieldResult) × String)}
    {address off : Nat} {rest : List Nat} {r : FieldResult}
    {acc : FieldResult}
    (h : tryPairs evals.reverse (address + off) acc = .inl r) :
    searchOffsets evals address acc (off :: rest) = r := by
  rw [searchOffsets, h]

theorem searchOffsets_cons_inr {evals : List ((Nat → FieldResult) × String)}
    {address off : Nat} {rest : List Nat} {acc acc' : FieldResult}
    (h : tryPairs evals.reverse (address + off) acc = .inr acc') :
    searchOffsets evals address acc (off :: rest) =
      searchOffsets evals address acc' rest := by
  rw [searchOffsets, h]

theorem tryPairs_spec (a : Nat) :
    ∀ (l : List ((Nat → FieldResult) × String)) (last : FieldResult),
      tryPairs l a last =
        ((l.map (fun el => (el.1 a, el.2))).find?
            (fun rl => decide (rl.1.compare_value = some rl.2))).elim
          (.inr (((l.map (fun el => (el.1 a, el.2))).getLast?).elim last
            Prod.fst))
          (fun rl => .inl rl.1) := by
  intro l
  induction l with
  | nil => intro last; rfl
  | cons el rest ih =>
    intro last
    obtain ⟨e, value⟩ := el
    simp only [tryPairs, List.map_cons]
    by_cases hm : (e a).compare_value = some value
    · rw [if_pos hm, List.find?_cons_of_pos _ (by simpa using hm)]
      rfl
    · rw [if_neg hm, ih, List.find?_cons_of_neg _ (by simpa using hm)]
      cases hfind : (rest.map (fun el => (el.1 a, el.2))).find?
          (fun rl => decide (rl.1.compare_value = some rl.2)) with
      | some rl => rfl
      | none =>
        cases hrest : rest.map (fun el => (el.1 a, el.2)) with
        | nil => simp
        | cons z zs =>
          rw [List.getLast?_cons_cons]
          cases hlast : (z :: zs).getLast? with
          | none => exact absurd (List.getLast?_eq_none_iff.mp hlast) (by simp)
          | some w => rfl

theorem searchOffsets_spec (evals : List ((Nat → FieldResult) × String))
    (address : Nat) :
    ∀ (offs : List Nat) (last : FieldResult),
      searchOffsets evals address last offs =
        ((offs.flatMap (fun off => evals.reverse.map
            (fun el => (el.1 (address + off), el.2)))).find?
            (fun rl => decide (rl.1.compare_value = some rl.2))).elim
          (((offs.flatMap (fun off => evals.reverse.map
            (fun el => (el.1 (address + off), el.2)))).getLast?).elim last
            Prod.fst)
          Prod.fst := by
  intro offs
  induction offs with
  | nil => intro last; rfl
  | cons off rest ih =>
    intro last
    cases hfind : ((evals.reverse.map
        (fun el => (el.1 (address + off), el.2))).find?
        (fun rl => decide (rl.1.compare_value = some rl.2))) with
    | some rl =>
      have htry : tryPairs evals.reverse (address + off) last = .inl rl.1 := by
        rw [tryPairs_spec (address + off) evals.reverse last, hfind]
        rfl
      rw [searchOffsets_cons_inl htry]
      simp only [List.flatMap_cons, List.find?_append, hfind]
      rfl
    | none =>
      have htry : tryPairs evals.reverse (address + off) last =
          .inr (((evals.reverse.map
            (fun el => (el.1 (address + off), el.2))).getLast?).elim last
            Prod.fst) := by
        rw [tryPairs_spec (address + off) evals.reverse last, hfind]
        rfl
      rw [searchOffsets_cons_inr htry, ih]
      simp only [List.flatMap_cons, List.find?_append, hfind,
        List.getLast?_append]
      cases hfind2 : ((rest.flatMap (fun off => evals.reverse.map
          (fun el => (el.1 (address + off), el.2)))).find?
          (fun rl => decide (rl.1.compare_value = some rl.2))) with
      | some rl2 => rfl
      | none =>
        cases hl2 : (rest.flatMap (fun off => evals.reverse.map
            (fun el => (el.1 (address + off), el.2)))).getLast? with
        | some w => rfl
        | none => rfl

/-- C6 (amended): a `SearchValues([(schema, literal), ...])` field at
address `A` walks offsets `0..1000` in increasing order and, at each
offset, tries the pairs in **reverse declaration order**, comparing the
string form of the decoded scalar with the literal; it returns the first
matching sub-result in that traversal, and when nothing matches it
returns the last attempted sub-result (`Padding(0)` if there are no
pairs). -/
theorem c6_search_values_reverse_order (env : Env)
    (pairs : List (Field × String)) (a : Nat) :
    Field.result env (.SearchValues pairs) a =
      searchValuesSpecRev (evalsOf env pairs) a := by
  rw [result_searchValues, searchOffsets_spec]
  rfl

/-- C6 counterexample: both pairs of `pairsC6 = [(U8, "5"), (U16, "5")]`
match at offset 0, yet the evaluator returns the `U16` sub-result — the
pair declared **last** — while the claim's declaration-order reading
(`searchValuesSpecDecl`) returns the `U8` sub-result. -/
theorem c6_counterexample :
    Field.result envC6 (.SearchValues pairsC6) 0 = .U16 (.Ok ⟨true⟩ 5) ∧
    searchValuesSpecDecl (evalsOf envC6 pairsC6) 0 = .U8 (.Ok ⟨true⟩ 5) := by
  have hU16 : Field.result envC6 .U16 0 = .U16 (.Ok ⟨true⟩ 5) := by
    rw [Field.result]
    rfl
  have hU8 : Field.result envC6 .U8 0 = .U8 (.Ok ⟨true⟩ 5) := by
    rw [Field.result]
    rfl
  have hevals : evalsOf envC6 pairsC6 =
      [((fun a => Field.result envC6 .U8 a), "5"),
       ((fun a => Field.result envC6 .U16 a), "5")] := by
    simp [evalsOf, pairsC6]
  have hrange : List.range 1000 = 0 :: List.range' 1 999 := by
    rw [List.range_eq_range']
    rfl
  have hcv16 : (FieldResult.U16 (.Ok ⟨true⟩ 5)).compare_value = some "5" := by
    decide
  have hcv8 : (FieldResult.U8 (.Ok ⟨true⟩ 5)).compare_value = some "5" := by
    decide
  constructor
  · rw [result_searchValues, hevals, hrange]
    have htry : tryPairs ([((fun a => Field.result envC6 .U8 a), "5"),
        ((fun a => Field.result envC6 .U16 a), "5")]).reverse (0 + 0)
        (.Padding 0) = .inl (.U16 (.Ok ⟨true⟩ 5)) := by
      simp only [List.reverse_cons, List.reverse_nil, List.nil_append,
        List.cons_append, tryPairs, Nat.add_zero]
      rw [hU16, if_pos hcv16]
    rw [searchOffsets_cons_inl htry]
  · unfold searchValuesSpecDecl searchValuesSpecBy searchAttempts
    rw [hevals, hrange]
    simp only [id_eq, List.flatMap_cons, List.map_cons, List.map_nil,
      Nat.add_zero, List.find?_append]
    rw [hU8, hU16]
    rw [List.find?_cons_of_pos _ (by simp [hcv8])]
    rfl

/-- C10 witness: a `u32` scan over the 2-byte region of `envTiny`. -/
theorem c10_small_buffer_panics_witness :
    possible_values .u32 [0] 0 = none ∧
    possible_values .u32 [0, 0, 0, 0] 0 = some [] ∧
    queryScan envTiny .u32 .Any = none :=
  ⟨c10_small_buffer_panics.1 .u32 [0] 0 (by decide),
   c10_small_buffer_panics.2.1 .u32 [0, 0, 0, 0] 0 (by decide),
   c10_small_buffer_panics.2.2 envTiny .u32 .Any (⟨true⟩, mapTiny) [0, 0]
     (by decide) (by decide) (by decide)⟩

end Betrayal
